import Mathlib

/-!
Verification of the `TravelData` itinerary store (`src/data_class.py`).

The store is a Python `OrderedDict` mapping a location name to a tuple of
details.  `add_location` always stores a 5-tuple
`(country, lat, lon, days, transport)`; the buggy line in `change_days`
writes a 4-tuple `(country, lat, lon, new_days)`, so entries of both
arities can in principle occur and the embedding models both.

Latitude/longitude are opaque payload for every claim considered here (no
arithmetic is ever performed on them by the operations under scrutiny), so
they are embedded as `Int` stand-ins for Python floats.  `days` is a Python
`int`, embedded as `Int`.

An `OrderedDict` is embedded as an association list with unique keys,
`Store := List (String × Entry)`, with the exact Python semantics of the
operations used by the source:
  * `d[k] = v` (`dictSet`): if `k` is present its value is replaced at its
    existing position, otherwise `(k, v)` is appended at the end;
  * `k in d` (`dictMem`), `d[k]` (`dictGet`);
  * `d.pop(k)` / `del d[k]` (`dictPop`): removes the entry;
  * `d.update(other)` (`dictUpdateAll`): `dictSet` folded over `other`.
-/

/-- Result of the geocoding boundary (`geopy` in the source): a coordinate
pair, a not-found answer (`geocode` returned `None`), or a timeout
(`GeocoderTimedOut`). -/
inductive GeoResult where
  | found (lat lon : Int)
  | notFound
  | timedOut
deriving DecidableEq, Repr

/-- A stored details tuple.  `e5` is the 5-tuple
`(country, lat, lon, days, transport)` built by `add_location`
(line 94 of `data_class.py`); `e4` is the 4-tuple
`(country, lat, lon, days)` that line 204 of `change_days` would write. -/
inductive Entry where
  | e5 (country : String) (lat lon : Int) (days : Int) (transport : String)
  | e4 (country : String) (lat lon : Int) (days : Int)
deriving DecidableEq, Repr

/-- `details[0]`: the country. -/
def Entry.country : Entry → String
  | .e5 c _ _ _ _ => c
  | .e4 c _ _ _ => c

/-- `details[3]`: the number of days. -/
def Entry.days : Entry → Int
  | .e5 _ _ _ d _ => d
  | .e4 _ _ _ d => d

/-- The in-memory state `self.data`: an `OrderedDict` name → details. -/
abbrev Store := List (String × Entry)

/-- The keys of the store, in order. -/
def keysOf (s : Store) : List String := s.map Prod.fst

/-- Python error outcomes surfaced by the operations: a missing name
(reported `⚠️ ... not found`), a failed coordinate resolution (insert
skipped), or a raised `ValueError` (tuple-unpacking arity mismatch). -/
inductive PyErr where
  | notFound
  | resolutionFailure
  | valueError
deriving DecidableEq, Repr

/-- Outcome of one mutating call: resulting in-memory store, whether
`save_data` ran (a snapshot write happened), and the reported error if
any. -/
structure OpResult where
  store : Store
  saved : Bool
  error : Option PyErr
deriving DecidableEq, Repr

/-- `d[k]`, returning `none` when the key is absent. -/
def dictGet : Store → String → Option Entry
  | [], _ => none
  | kv :: rest, k => if kv.1 = k then some kv.2 else dictGet rest k

/-- `k in d`. -/
def dictMem (s : Store) (k : String) : Bool := (dictGet s k).isSome

/-- `d[k] = v` on an ordered dict: replace in place when present, append
otherwise. -/
def dictSet : Store → String → Entry → Store
  | [], k, v => [(k, v)]
  | kv :: rest, k, v => if kv.1 = k then (k, v) :: rest else kv :: dictSet rest k v

/-- `d.pop(k)` / `del d[k]`: the store with the entry removed. -/
def dictPop : Store → String → Store
  | [], _ => []
  | kv :: rest, k => if kv.1 = k then rest else kv :: dictPop rest k

/-- `acc.update(items)`: `dictSet` each item of `items` into `acc` in
order. -/
def dictUpdateAll (acc : Store) (items : Store) : Store :=
  items.foldl (fun a kv => dictSet a kv.1 kv.2) acc

/-- `after_place in self.data` where `after_place : Option String`
(Python `None` is never a key of the store). -/
def apMem (s : Store) (ap : Option String) : Bool :=
  match ap with
  | some a => dictMem s a
  | none => false

/-- `get_lat_lon` (lines 73–84): geocode the text; on a hit return the
coordinate pair, on not-found or timeout return `(None, None)`. -/
def get_lat_lon (resolve : String → GeoResult) (location : String) :
    Option (Int × Int) :=
  match resolve location with
  | .found lat lon => some (lat, lon)
  | .notFound => none
  | .timedOut => none

/-- The `position == "after"` insertion loop shared verbatim by
`add_location` (lines 102–105) and `move_location` (lines 141–144):
rebuild the dict, copying each entry and placing `(name, e)` right after
the entry keyed `after_place`. -/
def insertAfterGo (after_place name : String) (e : Entry)
    (acc : Store) (items : Store) : Store :=
  items.foldl (fun acc kv =>
    let acc2 := dictSet acc kv.1 kv.2
    if kv.1 = after_place then dictSet acc2 name e else acc2) acc

/-- The same loop started from the empty `updated_data = OrderedDict()`. -/
def insertAfter (s : Store) (after_place name : String) (e : Entry) : Store :=
  insertAfterGo after_place name e [] s

/-- `add_location` (lines 86–111).  Coordinates are resolved for
`f"{name}, {country}"` first; on failure the insert is skipped with no
mutation and no save.  Otherwise the new 5-tuple is placed according to
`position`:
  * `"start"`: `updated_data[name] = new_entry; updated_data.update(self.data)`;
  * `"after"` with `after_place in self.data`: the copy loop above;
  * anything else: `self.data[name] = new_entry`;
and `save_data` runs. -/
def add_location (resolve : String → GeoResult) (s : Store)
    (name country : String) (days : Int) (transport : String)
    (position : String) (after_place : Option String) : OpResult :=
  match get_lat_lon resolve (name ++ ", " ++ country) with
  | none => ⟨s, false, some .resolutionFailure⟩
  | some (lat, lon) =>
    let new_entry : Entry := .e5 country lat lon days transport
    if position = "start" then
      ⟨dictUpdateAll [(name, new_entry)] s, true, none⟩
    else if position = "after" ∧ apMem s after_place then
      ⟨insertAfter s (after_place.getD "") name new_entry, true, none⟩
    else
      ⟨dictSet s name new_entry, true, none⟩

/-- `move_location` (lines 122–153).  Absent name: warning, no change, no
save.  Otherwise the details are popped and re-placed according to
`new_position` with the same three branches as `add_location`, then
`save_data` runs. -/
def move_location (s : Store) (name : String) (new_position : String)
    (after_place : Option String) : OpResult :=
  match dictGet s name with
  | none => ⟨s, false, some .notFound⟩
  | some location_details =>
    let s' := dictPop s name
    if new_position = "start" then
      ⟨dictUpdateAll [(name, location_details)] s', true, none⟩
    else if new_position = "after" ∧ apMem s' after_place then
      ⟨insertAfter s' (after_place.getD "") name location_details, true, none⟩
    else
      ⟨dictSet s' name location_details, true, none⟩

/-- `remove_location` (lines 113–120): delete the entry when present (and
save); otherwise report not-found with no change. -/
def remove_location (s : Store) (name : String) : OpResult :=
  if dictMem s name then ⟨dictPop s name, true, none⟩
  else ⟨s, false, some .notFound⟩

/-- `change_days` (lines 200–208).  Line 203 unpacks the stored tuple into
exactly four names `country, lat, lon, _`; on the 5-tuples that
`add_location` stores this raises `ValueError` (too many values to
unpack) before any assignment, so the store is unchanged and nothing is
saved.  On a 4-tuple the unpack succeeds and line 204 writes the 4-tuple
`(country, lat, lon, new_days)`. -/
def change_days (s : Store) (name : String) (new_days : Int) : OpResult :=
  match dictGet s name with
  | some (.e4 country lat lon _) =>
      ⟨dictSet s name (.e4 country lat lon new_days), true, none⟩
  | some (.e5 _ _ _ _ _) => ⟨s, false, some .valueError⟩
  | none => ⟨s, false, some .notFound⟩

/-- `change_location_name` (lines 230–237):
`self.data[new_name] = self.data.pop(old_name)` when `old_name` is
present (then save); otherwise report not-found. -/
def change_location_name (s : Store) (old_name new_name : String) : OpResult :=
  match dictGet s old_name with
  | some v => ⟨dictSet (dictPop s old_name) new_name v, true, none⟩
  | none => ⟨s, false, some .notFound⟩

/-- The `defaultdict(int)` accumulation step
`country_days[country] += days`: bump the total of `country` in place if
present, else append `(country, days)` (Python dicts keep first-insertion
order). -/
def bumpCountry : List (String × Int) → String → Int → List (String × Int)
  | [], c, d => [(c, d)]
  | (c', t) :: rest, c, d =>
      if c' = c then (c, t + d) :: rest else (c', t) :: bumpCountry rest c d

/-- `days_per_country` (lines 185–198), the returned mapping: fold over
the store in order, accumulating `details[3]` per `details[0]`. -/
def days_per_country (s : Store) : List (String × Int) :=
  s.foldl (fun cd kv => bumpCountry cd kv.2.country kv.2.days) []

/-- One insertion step of a stable descending sort on the total: the
element being inserted came earlier in the input, so on ties it stays in
front. -/
def insertDesc (x : String × Int) :
    List (String × Int) → List (String × Int)
  | [] => [x]
  | y :: l => if y.2 ≤ x.2 then x :: y :: l else y :: insertDesc x l

/-- Stable descending sort by total, the semantics of
`sorted(country_days.items(), key=lambda x: -x[1])` at line 195 (Python's
sort is stable). -/
def sortDesc : List (String × Int) → List (String × Int)
  | [] => []
  | x :: xs => insertDesc x (sortDesc xs)

/-- The enumeration order in which `days_per_country` displays its result
(the `for country, days in sorted(...)` loop at lines 195–196). -/
def days_per_country_display (s : Store) : List (String × Int) :=
  sortDesc (days_per_country s)

/-- One pickled row of the snapshot: the key plus the details tuple,
tagged with its arity. -/
structure SnapRow where
  name : String
  hasTransport : Bool
  country : String
  lat : Int
  lon : Int
  days : Int
  transport : String
deriving DecidableEq, Repr

/-- Serialize one `(name, details)` pair into a snapshot row. -/
def pickleEntry (name : String) : Entry → SnapRow
  | .e5 c la lo d t => ⟨name, true, c, la, lo, d, t⟩
  | .e4 c la lo d => ⟨name, false, c, la, lo, d, ""⟩

/-- Deserialize one snapshot row back into a `(name, details)` pair. -/
def unpickleEntry (r : SnapRow) : String × Entry :=
  if r.hasTransport then (r.name, .e5 r.country r.lat r.lon r.days r.transport)
  else (r.name, .e4 r.country r.lat r.lon r.days)

/-- `save_data` (lines 51–58): `pickle.dump(self.data, f)` — serialize
the whole ordered mapping. -/
def save_data (s : Store) : List SnapRow :=
  s.map (fun kv => pickleEntry kv.1 kv.2)

/-- `load_data` (lines 60–71): a readable snapshot is deserialized in
full; a missing or unreadable file leaves/returns the fresh empty
store. -/
def load_data : Option (List SnapRow) → Store
  | some rows => rows.map unpickleEntry
  | none => []

/-! ### Lemmas about the ordered-dict primitives -/

theorem keysOf_append (s t : Store) : keysOf (s ++ t) = keysOf s ++ keysOf t :=
  List.map_append _ _ _

theorem keysOf_cons (kv : String × Entry) (s : Store) :
    keysOf (kv :: s) = kv.1 :: keysOf s := rfl

theorem dictGet_eq_none (s : Store) (k : String) (h : k ∉ keysOf s) :
    dictGet s k = none := by
  induction s with
  | nil => rfl
  | cons kv rest ih =>
    rw [keysOf_cons, List.mem_cons] at h
    push_neg at h
    rw [dictGet, if_neg (fun hk => h.1 hk.symm)]
    exact ih h.2

theorem dictGet_of_decomp (p₁ p₂ : Store) (k : String) (v : Entry)
    (h₁ : k ∉ keysOf p₁) : dictGet (p₁ ++ (k, v) :: p₂) k = some v := by
  induction p₁ with
  | nil => simp [dictGet]
  | cons kv rest ih =>
    rw [keysOf_cons, List.mem_cons] at h₁
    push_neg at h₁
    rw [List.cons_append, dictGet, if_neg (fun hk => h₁.1 hk.symm)]
    exact ih h₁.2

theorem dictPop_of_decomp (p₁ p₂ : Store) (k : String) (v : Entry)
    (h₁ : k ∉ keysOf p₁) : dictPop (p₁ ++ (k, v) :: p₂) k = p₁ ++ p₂ := by
  induction p₁ with
  | nil => simp [dictPop]
  | cons kv rest ih =>
    rw [keysOf_cons, List.mem_cons] at h₁
    push_neg at h₁
    rw [List.cons_append, dictPop, if_neg (fun hk => h₁.1 hk.symm),
      ih h₁.2, List.cons_append]

theorem dictSet_of_not_mem (s : Store) (k : String) (v : Entry)
    (h : k ∉ keysOf s) : dictSet s k v = s ++ [(k, v)] := by
  induction s with
  | nil => rfl
  | cons kv rest ih =>
    rw [keysOf_cons, List.mem_cons] at h
    push_neg at h
    rw [dictSet, if_neg (fun hk => h.1 hk.symm), ih h.2, List.cons_append]

theorem dictSet_of_decomp (p₁ p₂ : Store) (k : String) (w v : Entry)
    (h₁ : k ∉ keysOf p₁) : dictSet (p₁ ++ (k, w) :: p₂) k v = p₁ ++ (k, v) :: p₂ := by
  induction p₁ with
  | nil => simp [dictSet]
  | cons kv rest ih =>
    rw [keysOf_cons, List.mem_cons] at h₁
    push_neg at h₁
    rw [List.cons_append, dictSet, if_neg (fun hk => h₁.1 hk.symm),
      ih h₁.2, List.cons_append]

theorem dictMem_exists_decomp (s : Store) (k : String) (h : dictMem s k = true) :
    ∃ p₁ v p₂, s = p₁ ++ (k, v) :: p₂ ∧ k ∉ keysOf p₁ := by
  induction s with
  | nil => simp [dictMem, dictGet] at h
  | cons kv rest ih =>
    by_cases hk : kv.1 = k
    · exact ⟨[], kv.2, rest, by simp [hk.symm], by simp [keysOf]⟩
    · rw [dictMem, dictGet, if_neg hk] at h
      obtain ⟨p₁, v, p₂, hdec, hmem⟩ := ih h
      refine ⟨kv :: p₁, v, p₂, by rw [hdec, List.cons_append], ?_⟩
      rw [keysOf_cons, List.mem_cons]
      push_neg
      exact ⟨fun hc => hk hc.symm, hmem⟩

theorem dictMem_of_decomp (p₁ p₂ : Store) (k : String) (v : Entry) :
    dictMem (p₁ ++ (k, v) :: p₂) k = true := by
  induction p₁ with
  | nil => simp [dictMem, dictGet]
  | cons kv rest ih =>
    by_cases hk : kv.1 = k
    · simp [dictMem, dictGet, hk]
    · rw [List.cons_append, dictMem, dictGet, if_neg hk]
      exact ih

theorem dictUpdateAll_append (acc a b : Store) :
    dictUpdateAll acc (a ++ b) = dictUpdateAll (dictUpdateAll acc a) b :=
  List.foldl_append _ _ _ _

theorem dictUpdateAll_disjoint (items : Store) (acc : Store)
    (h : ∀ x ∈ keysOf items, x ∉ keysOf acc) (hnd : (keysOf items).Nodup) :
    dictUpdateAll acc items = acc ++ items := by
  induction items generalizing acc with
  | nil => simp [dictUpdateAll]
  | cons kv rest ih =>
    rw [keysOf_cons, List.nodup_cons] at hnd
    have hstep : dictSet acc kv.1 kv.2 = acc ++ [(kv.1, kv.2)] :=
      dictSet_of_not_mem acc kv.1 kv.2 (h kv.1 (by rw [keysOf_cons]; exact List.mem_cons_self _ _))
    have hrest : ∀ x ∈ keysOf rest, x ∉ keysOf (acc ++ [(kv.1, kv.2)]) := by
      intro x hx
      rw [keysOf_append, List.mem_append]
      push_neg
      constructor
      · exact h x (by rw [keysOf_cons]; exact List.mem_cons_of_mem _ hx)
      · simp [keysOf]
        intro hxk
        exact hnd.1 (hxk ▸ hx)
    have : dictUpdateAll acc (kv :: rest)
        = dictUpdateAll (acc ++ [(kv.1, kv.2)]) rest := by
      rw [dictUpdateAll, List.foldl_cons, hstep]; rfl
    rw [this, ih (acc ++ [(kv.1, kv.2)]) hrest hnd.2, List.append_assoc]
    rfl

theorem insertAfterGo_append (a n : String) (e : Entry) (acc l₁ l₂ : Store) :
    insertAfterGo a n e acc (l₁ ++ l₂)
      = insertAfterGo a n e (insertAfterGo a n e acc l₁) l₂ :=
  List.foldl_append _ _ _ _

theorem insertAfterGo_no_trigger (a n : String) (e : Entry) (items : Store)
    (acc : Store) (ha : a ∉ keysOf items)
    (h : ∀ x ∈ keysOf items, x ∉ keysOf acc) (hnd : (keysOf items).Nodup) :
    insertAfterGo a n e acc items = acc ++ items := by
  induction items generalizing acc with
  | nil => simp [insertAfterGo]
  | cons kv rest ih =>
    rw [keysOf_cons, List.mem_cons] at ha
    push_neg at ha
    rw [keysOf_cons, List.nodup_cons] at hnd
    have hstep : dictSet acc kv.1 kv.2 = acc ++ [(kv.1, kv.2)] :=
      dictSet_of_not_mem acc kv.1 kv.2 (h kv.1 (by rw [keysOf_cons]; exact List.mem_cons_self _ _))
    have hrest : ∀ x ∈ keysOf rest, x ∉ keysOf (acc ++ [(kv.1, kv.2)]) := by
      intro x hx
      rw [keysOf_append, List.mem_append]
      push_neg
      refine ⟨h x (by rw [keysOf_cons]; exact List.mem_cons_of_mem _ hx), ?_⟩
      simp [keysOf]
      intro hxk
      exact hnd.1 (hxk ▸ hx)
    have hka : ¬ (kv.1 = a) := fun hc => ha.1 hc.symm
    have hgo : insertAfterGo a n e acc (kv :: rest)
        = insertAfterGo a n e (acc ++ [(kv.1, kv.2)]) rest := by
      rw [insertAfterGo, List.foldl_cons]
      simp only [hka, if_false, hstep]
      rfl
    rw [hgo, ih (acc ++ [(kv.1, kv.2)]) (fun hc => ha.2 hc) hrest hnd.2,
      List.append_assoc]
    rfl

theorem nodup_decomp (p₁ p₂ : Store) (k : String) (v : Entry)
    (hnd : (keysOf (p₁ ++ (k, v) :: p₂)).Nodup) :
    (keysOf p₁).Nodup ∧ (keysOf p₂).Nodup ∧ k ∉ keysOf p₁ ∧ k ∉ keysOf p₂ ∧
      (∀ x ∈ keysOf p₂, x ∉ keysOf p₁) := by
  rw [keysOf_append, keysOf_cons, List.nodup_append] at hnd
  obtain ⟨h₁, h₂, hdisj⟩ := hnd
  rw [List.nodup_cons] at h₂
  refine ⟨h₁, h₂.2, fun hk => hdisj hk (List.mem_cons_self _ _), h₂.1, ?_⟩
  intro x hx hx1
  exact hdisj hx1 (List.mem_cons_of_mem _ hx)

theorem insertAfter_decomp (p₁ p₂ : Store) (a n : String) (va e : Entry)
    (hnd : (keysOf (p₁ ++ (a, va) :: p₂)).Nodup)
    (hn : n ∉ keysOf (p₁ ++ (a, va) :: p₂)) :
    insertAfter (p₁ ++ (a, va) :: p₂) a n e = p₁ ++ (a, va) :: (n, e) :: p₂ := by
  obtain ⟨hnd₁, hnd₂, ha₁, ha₂, hdisj⟩ := nodup_decomp p₁ p₂ a va hnd
  rw [keysOf_append, keysOf_cons, List.mem_append, List.mem_cons] at hn
  push_neg at hn
  obtain ⟨hn₁, hna, hn₂⟩ := hn
  rw [insertAfter, show p₁ ++ (a, va) :: p₂ = (p₁ ++ [(a, va)]) ++ p₂ by simp,
    insertAfterGo_append]
  have hgo₁ : insertAfterGo a n e [] (p₁ ++ [(a, va)])
      = p₁ ++ [(a, va), (n, e)] := by
    rw [insertAfterGo_append]
    rw [insertAfterGo_no_trigger a n e p₁ [] ha₁ (by simp [keysOf]) hnd₁]
    rw [List.nil_append]
    show (let acc2 := dictSet p₁ a va;
      if a = a then dictSet acc2 n e else acc2) = p₁ ++ [(a, va), (n, e)]
    rw [if_pos rfl]
    rw [dictSet_of_not_mem p₁ a va ha₁]
    rw [dictSet_of_not_mem (p₁ ++ [(a, va)]) n e (by
      rw [keysOf_append, List.mem_append]
      push_neg
      refine ⟨hn₁, ?_⟩
      rw [show keysOf [(a, va)] = [a] from rfl, List.mem_singleton]
      exact hna)]
    simp
  rw [hgo₁]
  rw [insertAfterGo_no_trigger a n e p₂ (p₁ ++ [(a, va), (n, e)]) ha₂ ?_ hnd₂]
  · simp
  · intro x hx
    rw [keysOf_append, List.mem_append]
    push_neg
    refine ⟨hdisj x hx, ?_⟩
    simp [keysOf]
    constructor
    · intro hxa; exact ha₂ (hxa ▸ hx)
    · intro hxn; exact hn₂ (hxn ▸ hx)

theorem startPlace_fresh (s : Store) (n : String) (e : Entry)
    (hnd : (keysOf s).Nodup) (hn : n ∉ keysOf s) :
    dictUpdateAll [(n, e)] s = (n, e) :: s := by
  rw [dictUpdateAll_disjoint s [(n, e)] ?_ hnd]
  · rfl
  · intro x hx
    simp [keysOf]
    intro hxn
    exact hn (hxn ▸ hx)

theorem startPlace_existing (p₁ p₂ : Store) (n : String) (w e : Entry)
    (hnd : (keysOf (p₁ ++ (n, w) :: p₂)).Nodup) :
    dictUpdateAll [(n, e)] (p₁ ++ (n, w) :: p₂) = (n, w) :: (p₁ ++ p₂) := by
  obtain ⟨hnd₁, hnd₂, hn₁, hn₂, hdisj⟩ := nodup_decomp p₁ p₂ n w hnd
  rw [show p₁ ++ (n, w) :: p₂ = (p₁ ++ [(n, w)]) ++ p₂ by simp,
    dictUpdateAll_append, dictUpdateAll_append]
  have h₁ : dictUpdateAll [(n, e)] p₁ = (n, e) :: p₁ := by
    rw [dictUpdateAll_disjoint p₁ [(n, e)] ?_ hnd₁]
    · rfl
    · intro x hx
      simp [keysOf]
      intro hxn
      exact hn₁ (hxn ▸ hx)
  have h₂ : dictUpdateAll ((n, e) :: p₁) [(n, w)] = (n, w) :: p₁ := by
    show dictSet ((n, e) :: p₁) n w = (n, w) :: p₁
    rw [dictSet, if_pos rfl]
  rw [h₁, h₂]
  rw [dictUpdateAll_disjoint p₂ ((n, w) :: p₁) ?_ hnd₂]
  · rfl
  · intro x hx
    rw [keysOf_cons, List.mem_cons]
    push_neg
    constructor
    · intro hxn; subst hxn; exact hn₂ hx
    · exact hdisj x hx

/-! ### Lemmas for the per-country analytics -/

/-- Specification-side sum: total `duration_days` of the waypoints of a
given country, in store order. -/
def sumDaysFor : Store → String → Int
  | [], _ => 0
  | kv :: rest, c => (if kv.2.country = c then kv.2.days else 0) + sumDaysFor rest c

/-- Total recorded for a country in an accumulator list (sums every
occurrence; `bumpCountry` keeps keys unique so at most one occurs). -/
def totalIn : List (String × Int) → String → Int
  | [], _ => 0
  | p :: rest, c => (if p.1 = c then p.2 else 0) + totalIn rest c

theorem totalIn_bump (cd : List (String × Int)) (c : String) (d : Int) (x : String) :
    totalIn (bumpCountry cd c d) x = totalIn cd x + (if c = x then d else 0) := by
  induction cd with
  | nil => simp [bumpCountry, totalIn]
  | cons p rest ih =>
    obtain ⟨c', t'⟩ := p
    by_cases hc : c' = c
    · subst hc
      rw [bumpCountry, if_pos rfl]
      by_cases hx : c' = x
      · subst hx
        simp [totalIn]
        ring
      · simp [totalIn, hx]
    · rw [bumpCountry, if_neg hc]
      by_cases hx : c' = x
      · subst hx
        simp [totalIn, ih]
        ring
      · simp [totalIn, hx, ih]

theorem totalIn_foldl (s : Store) : ∀ cd x,
    totalIn (s.foldl (fun cd kv => bumpCountry cd kv.2.country kv.2.days) cd) x
      = totalIn cd x + sumDaysFor s x := by
  induction s with
  | nil => intro cd x; simp [sumDaysFor]
  | cons kv rest ih =>
    intro cd x
    rw [List.foldl_cons, ih, totalIn_bump, sumDaysFor]
    ring

theorem days_per_country_totalIn (s : Store) (x : String) :
    totalIn (days_per_country s) x = sumDaysFor s x := by
  have h := totalIn_foldl s [] x
  rw [days_per_country, h, totalIn, Int.zero_add]

theorem mem_insertDesc (x z : String × Int) (l : List (String × Int)) :
    z ∈ insertDesc x l ↔ z = x ∨ z ∈ l := by
  induction l with
  | nil => simp [insertDesc]
  | cons y m ih =>
    rw [insertDesc]
    by_cases h : y.2 ≤ x.2
    · rw [if_pos h, List.mem_cons]
    · rw [if_neg h, List.mem_cons, ih, List.mem_cons]
      tauto

theorem insertDesc_perm (x : String × Int) (l : List (String × Int)) :
    (insertDesc x l).Perm (x :: l) := by
  induction l with
  | nil => simp [insertDesc]
  | cons y m ih =>
    rw [insertDesc]
    by_cases h : y.2 ≤ x.2
    · rw [if_pos h]
    · rw [if_neg h]
      exact (ih.cons y).trans (List.Perm.swap x y m)

theorem sortDesc_perm (l : List (String × Int)) : (sortDesc l).Perm l := by
  induction l with
  | nil => simp [sortDesc]
  | cons x m ih =>
    rw [sortDesc]
    exact (insertDesc_perm x (sortDesc m)).trans (ih.cons x)

theorem pairwise_insertDesc (x : String × Int) (l : List (String × Int))
    (h : l.Pairwise (fun p q => q.2 ≤ p.2)) :
    (insertDesc x l).Pairwise (fun p q => q.2 ≤ p.2) := by
  induction l with
  | nil => simp [insertDesc]
  | cons y m ih =>
    rw [List.pairwise_cons] at h
    rw [insertDesc]
    by_cases hle : y.2 ≤ x.2
    · rw [if_pos hle]
      rw [List.pairwise_cons]
      refine ⟨?_, List.pairwise_cons.mpr h⟩
      intro z hz
      rcases List.mem_cons.mp hz with hzy | hzm
      · exact hzy ▸ hle
      · exact le_trans (h.1 z hzm) hle
    · rw [if_neg hle]
      rw [List.pairwise_cons]
      refine ⟨?_, ih h.2⟩
      intro z hz
      rcases (mem_insertDesc x z m).mp hz with hzx | hzm
      · subst hzx
        exact le_of_lt (lt_of_not_ge hle)
      · exact h.1 z hzm

theorem sortDesc_pairwise (l : List (String × Int)) :
    (sortDesc l).Pairwise (fun p q => q.2 ≤ p.2) := by
  induction l with
  | nil => simp [sortDesc]
  | cons x m ih =>
    rw [sortDesc]
    exact pairwise_insertDesc x (sortDesc m) ih

theorem filter_insertDesc (x : String × Int) (l : List (String × Int)) (t : Int) :
    (insertDesc x l).filter (fun y => decide (y.2 = t))
      = if x.2 = t then x :: l.filter (fun y => decide (y.2 = t))
        else l.filter (fun y => decide (y.2 = t)) := by
  induction l with
  | nil =>
    by_cases hx : x.2 = t
    · simp [insertDesc, List.filter, hx]
    · simp [insertDesc, List.filter, hx]
  | cons y m ih =>
    rw [insertDesc]
    by_cases hle : y.2 ≤ x.2
    · rw [if_pos hle]
      by_cases hx : x.2 = t
      · simp [List.filter_cons, hx]
      · simp [List.filter_cons, hx]
    · rw [if_neg hle]
      by_cases hx : x.2 = t
      · have hy : ¬ (y.2 = t) := by
          intro hyt
          exact hle (le_of_eq (hx ▸ hyt))
        rw [if_pos hx]
        rw [List.filter_cons, List.filter_cons]
        simp [hy, ih, if_pos hx]
      · rw [if_neg hx]
        rw [List.filter_cons, List.filter_cons]
        by_cases hy : y.2 = t
        · simp [hy, ih, if_neg hx]
        · simp [hy, ih, if_neg hx]

theorem sortDesc_filter (l : List (String × Int)) (t : Int) :
    (sortDesc l).filter (fun y => decide (y.2 = t))
      = l.filter (fun y => decide (y.2 = t)) := by
  induction l with
  | nil => rfl
  | cons x m ih =>
    rw [sortDesc, filter_insertDesc, List.filter_cons]
    by_cases hx : x.2 = t
    · simp [hx, if_pos hx, ih]
    · simp [hx, if_neg hx, ih]

/-! ### Characterization lemmas for the mutating operations -/

theorem apMem_false_of_not_mem (s : Store) (a : String) (ha : a ∉ keysOf s) :
    apMem s (some a) = false := by
  rw [apMem, dictMem, dictGet_eq_none s a ha, Option.isSome_none]

theorem add_location_resolved (resolve : String → GeoResult) (s : Store)
    (name country : String) (days : Int) (transport : String)
    (position : String) (ap : Option String) (lat lon : Int)
    (hres : resolve (name ++ ", " ++ country) = .found lat lon) :
    add_location resolve s name country days transport position ap
      = if position = "start" then
          ⟨dictUpdateAll [(name, .e5 country lat lon days transport)] s, true, none⟩
        else if position = "after" ∧ apMem s ap then
          ⟨insertAfter s (ap.getD "") name (.e5 country lat lon days transport),
            true, none⟩
        else ⟨dictSet s name (.e5 country lat lon days transport), true, none⟩ := by
  unfold add_location get_lat_lon
  rw [hres]

theorem add_location_unresolved (resolve : String → GeoResult) (s : Store)
    (name country : String) (days : Int) (transport : String)
    (position : String) (ap : Option String)
    (hres : resolve (name ++ ", " ++ country) = .notFound ∨
            resolve (name ++ ", " ++ country) = .timedOut) :
    add_location resolve s name country days transport position ap
      = ⟨s, false, some PyErr.resolutionFailure⟩ := by
  unfold add_location get_lat_lon
  rcases hres with h | h <;> rw [h]

theorem move_location_found (s : Store) (name new_position : String)
    (ap : Option String) (v : Entry) (h : dictGet s name = some v) :
    move_location s name new_position ap
      = if new_position = "start" then
          ⟨dictUpdateAll [(name, v)] (dictPop s name), true, none⟩
        else if new_position = "after" ∧ apMem (dictPop s name) ap then
          ⟨insertAfter (dictPop s name) (ap.getD "") name v, true, none⟩
        else ⟨dictSet (dictPop s name) name v, true, none⟩ := by
  unfold move_location
  rw [h]

/-! ### Shared concrete material for witnesses and counterexamples -/

/-- A resolver stub that always finds `(10, 20)`. -/
def geoStub : String → GeoResult := fun _ => .found 10 20

/-- A resolver stub that never finds the place. -/
def geoFail : String → GeoResult := fun _ => .notFound

/-- Example waypoint details. -/
def wA : Entry := .e5 "France" 1 2 3 "train"

/-- Example waypoint details. -/
def wB : Entry := .e5 "Spain" 4 5 6 "bus"

/-- Example waypoint details. -/
def wC : Entry := .e5 "Italy" 7 8 9 "car"

/-! ### The claims -/

/-- Claim C1 (code-bug evidence).  The claim says `change_days(n, d)`
updates only the duration field.  In the code, line 203 unpacks the stored
5-tuple into four names, which raises `ValueError` on every entry that
`add_location` created: evaluating the embedded code on a store holding
the 5-tuple for "Paris" shows the call reports `ValueError`, mutates
nothing and saves nothing, instead of updating the duration (and even the
write on line 204 would store a 4-tuple, dropping `transport_mode`). -/
theorem change_days_raises_valueError :
    change_days [("Paris", Entry.e5 "France" 48 2 3 "train")] "Paris" 5
      = ⟨[("Paris", Entry.e5 "France" 48 2 3 "train")], false,
          some PyErr.valueError⟩ := by
  decide

/-- Claim C2 (counterexample).  The claim says the renamed waypoint keeps
its position in the sequence.  On the store `[A, B]`, renaming `A` to `C`
yields key order `["B", "C"]`: the renamed entry moved from index 0 to the
end (the `OrderedDict` assignment appends the fresh key), so the claim as
stated is false. -/
theorem change_location_name_moves_entry_to_end :
    (change_location_name [("A", wA), ("B", wB)] "A" "C").store
        = [("B", wB), ("C", wA)]
    ∧ (change_location_name [("A", wA), ("B", wB)] "A" "C").store
        ≠ [("C", wA), ("B", wB)] := by
  constructor <;> decide

/-- Claim C3 (counterexample).  The claim says inserting a waypoint whose
name already exists keeps the pre-existing entry as well, leaving two
entries that share the name.  The store is a dict, so this is impossible:
adding "A" to a store already containing "A" (at the default `end`
position, with resolution succeeding) leaves exactly one entry named "A"
(the value replaced in place), not two. -/
theorem add_location_existing_name_no_duplicate :
    (add_location geoStub [("A", wA)] "A" "Greece" 9 "boat" "end" none).store
        = [("A", Entry.e5 "Greece" 10 20 9 "boat")]
    ∧ ((add_location geoStub [("A", wA)] "A" "Greece" 9 "boat" "end"
          none).store.countP (fun kv => kv.1 == "A")) = 1 := by
  constructor <;> decide

/-- Claim C6 (confirmed).  When coordinate resolution yields `NotFound` or
`TimedOut`, `add_location` aborts: the in-memory sequence is returned
exactly as it was, no snapshot write occurs (`saved = false`), and the
failure is reported (`ResolutionFailure`). -/
theorem add_location_abort_on_resolution_failure (resolve : String → GeoResult)
    (s : Store) (name country : String) (days : Int) (transport : String)
    (position : String) (ap : Option String)
    (hres : resolve (name ++ ", " ++ country) = .notFound ∨
            resolve (name ++ ", " ++ country) = .timedOut) :
    add_location resolve s name country days transport position ap
      = ⟨s, false, some PyErr.resolutionFailure⟩ :=
  add_location_unresolved resolve s name country days transport position ap hres

/-- Witness for C6 at a concrete input. -/
theorem add_location_abort_on_resolution_failure_witness :
    add_location geoFail [("A", wA)] "B" "Spain" 2 "bus" "end" none
      = ⟨[("A", wA)], false, some PyErr.resolutionFailure⟩ :=
  add_location_abort_on_resolution_failure geoFail [("A", wA)] "B" "Spain" 2
    "bus" "end" none (Or.inl rfl)

/-- Every pickled row decodes back to the pair it encoded. -/
theorem pickle_roundtrip (k : String) (e : Entry) :
    unpickleEntry (pickleEntry k e) = (k, e) := by
  cases e <;> rfl

/-- Claim C8 (confirmed).  `save_data` followed by `load_data` into a
fresh store reproduces an identical ordered sequence: the same names in
the same order with the same stored field values (full equality of the
ordered mapping, hence also key uniqueness whenever the saved store had
it). -/
theorem save_load_roundtrip (s : Store) :
    load_data (some (save_data s)) = s := by
  rw [load_data, save_data, List.map_map]
  have hcomp : (unpickleEntry ∘ fun kv => pickleEntry kv.1 kv.2)
      = (id : String × Entry → String × Entry) := by
    funext kv
    cases kv with
    | mk k e => exact pickle_roundtrip k e
  rw [hcomp, List.map_id]

/-- Claim C10 (confirmed).  Position matching is case-sensitive and falls
through silently: any `position` other than the exact lowercase `"start"`,
and also `"after"` whenever the `after_place` test fails (including
`after_place = None`), behaves exactly like `"end"`; with a fresh name the
waypoint is appended at the end of the sequence. -/
theorem add_location_position_fallthrough (resolve : String → GeoResult)
    (s : Store) (name country : String) (days : Int) (transport : String)
    (position : String) (ap : Option String)
    (h₁ : position ≠ "start") (h₂ : position = "after" → apMem s ap = false) :
    (add_location resolve s name country days transport position ap
        = add_location resolve s name country days transport "end" none)
  ∧ (∀ lat lon, resolve (name ++ ", " ++ country) = .found lat lon →
      name ∉ keysOf s →
      (add_location resolve s name country days transport position ap).store
        = s ++ [(name, Entry.e5 country lat lon days transport)]) := by
  have hc2 : ¬ (position = "after" ∧ apMem s ap = true) := by
    rintro ⟨hpa, hmem⟩
    rw [h₂ hpa] at hmem
    exact Bool.false_ne_true hmem
  have hkey : add_location resolve s name country days transport position ap
      = add_location resolve s name country days transport "end" none := by
    cases hr : resolve (name ++ ", " ++ country) with
    | found lat lon =>
      rw [add_location_resolved resolve s name country days transport position
          ap lat lon hr,
        add_location_resolved resolve s name country days transport "end"
          none lat lon hr,
        if_neg h₁, if_neg hc2, if_neg (by decide : ¬ ("end" = "start")),
        if_neg (fun h => absurd h.1 (by decide))]
    | notFound =>
      rw [add_location_unresolved resolve s name country days transport
          position ap (Or.inl hr),
        add_location_unresolved resolve s name country days transport "end"
          none (Or.inl hr)]
    | timedOut =>
      rw [add_location_unresolved resolve s name country days transport
          position ap (Or.inr hr),
        add_location_unresolved resolve s name country days transport "end"
          none (Or.inr hr)]
  refine ⟨hkey, ?_⟩
  intro lat lon hres hfresh
  rw [hkey, add_location_resolved resolve s name country days transport
    "end" none lat lon hres, if_neg (by decide : ¬ ("end" = "start")),
    if_neg (fun h => absurd h.1 (by decide))]
  exact dictSet_of_not_mem s name _ hfresh

/-- Witness for C10: with the misspelled position "Start" the waypoint is
appended, exactly as with "end". -/
theorem add_location_position_fallthrough_witness :
    (add_location geoStub [("A", wA)] "B" "Spain" 2 "bus" "Start" none
        = add_location geoStub [("A", wA)] "B" "Spain" 2 "bus" "end" none)
  ∧ (add_location geoStub [("A", wA)] "B" "Spain" 2 "bus" "Start" none).store
        = [("A", wA)] ++ [("B", Entry.e5 "Spain" 10 20 2 "bus")] := by
  have h := add_location_position_fallthrough geoStub [("A", wA)] "B" "Spain"
    2 "bus" "Start" none (by decide) (fun hc => absurd hc (by decide))
  exact ⟨h.1, h.2 10 20 rfl (by decide)⟩

/-- Claim C4 (confirmed).  For a fresh name with successful resolution:
`"start"` places the new waypoint first with every existing element
shifted right; `"end"` appends it; `"after"` with an existing
`after_place` puts it immediately after that element; `"after"` with an
absent `after_place` falls back to `"end"` semantics (appended, no
failure). -/
theorem add_location_fresh_placement (resolve : String → GeoResult) (s : Store)
    (name country : String) (days : Int) (transport : String) (lat lon : Int)
    (hres : resolve (name ++ ", " ++ country) = .found lat lon)
    (hnd : (keysOf s).Nodup) (hfresh : name ∉ keysOf s) :
    ((add_location resolve s name country days transport "start" none).store
        = (name, Entry.e5 country lat lon days transport) :: s)
  ∧ ((add_location resolve s name country days transport "end" none).store
        = s ++ [(name, Entry.e5 country lat lon days transport)])
  ∧ (∀ a va p₁ p₂, s = p₁ ++ (a, va) :: p₂ →
      (add_location resolve s name country days transport "after"
          (some a)).store
        = p₁ ++ (a, va) :: (name, Entry.e5 country lat lon days transport) :: p₂)
  ∧ (∀ a, a ∉ keysOf s →
      (add_location resolve s name country days transport "after"
          (some a)).store
        = s ++ [(name, Entry.e5 country lat lon days transport)]) := by
  refine ⟨?_, ?_, ?_, ?_⟩
  · rw [add_location_resolved resolve s name country days transport "start"
      none lat lon hres, if_pos rfl]
    exact startPlace_fresh s name _ hnd hfresh
  · rw [add_location_resolved resolve s name country days transport "end"
      none lat lon hres, if_neg (by decide : ¬ ("end" = "start")),
      if_neg (fun h => absurd h.1 (by decide))]
    exact dictSet_of_not_mem s name _ hfresh
  · intro a va p₁ p₂ hdec
    subst hdec
    rw [add_location_resolved _ _ name country days transport "after"
      (some a) lat lon hres, if_neg (by decide : ¬ ("after" = "start")),
      if_pos ⟨rfl, by rw [apMem, dictMem_of_decomp p₁ p₂ a va]⟩]
    exact insertAfter_decomp p₁ p₂ a name va _ hnd hfresh
  · intro a ha
    rw [add_location_resolved resolve s name country days transport "after"
      (some a) lat lon hres, if_neg (by decide : ¬ ("after" = "start")),
      if_neg (fun h => by
        have hm := h.2
        rw [apMem_false_of_not_mem s a ha] at hm
        exact Bool.false_ne_true hm)]
    exact dictSet_of_not_mem s name _ hfresh

/-- Witness for C4 at concrete inputs: a fresh "C" placed at start, end,
after "A", and after the absent "Z" in the store `[A, B]`. -/
theorem add_location_fresh_placement_witness :
    ((add_location geoStub [("A", wA), ("B", wB)] "C" "Italy" 9 "boat"
        "start" none).store
      = (("C", Entry.e5 "Italy" 10 20 9 "boat")) :: [("A", wA), ("B", wB)])
  ∧ ((add_location geoStub [("A", wA), ("B", wB)] "C" "Italy" 9 "boat"
        "end" none).store
      = [("A", wA), ("B", wB)] ++ [("C", Entry.e5 "Italy" 10 20 9 "boat")])
  ∧ ((add_location geoStub [("A", wA), ("B", wB)] "C" "Italy" 9 "boat"
        "after" (some "A")).store
      = [] ++ ("A", wA) :: ("C", Entry.e5 "Italy" 10 20 9 "boat") :: [("B", wB)])
  ∧ ((add_location geoStub [("A", wA), ("B", wB)] "C" "Italy" 9 "boat"
        "after" (some "Z")).store
      = [("A", wA), ("B", wB)] ++ [("C", Entry.e5 "Italy" 10 20 9 "boat")]) := by
  have h := add_location_fresh_placement geoStub [("A", wA), ("B", wB)] "C"
    "Italy" 9 "boat" 10 20 rfl (by decide) (by decide)
  exact ⟨h.1, h.2.1, h.2.2.1 "A" wA [] [("B", wB)] rfl,
    h.2.2.2 "Z" (by decide)⟩

/-- Claim C9 (confirmed).  `add_location` with `position = "start"` and a
name that already exists leaves that name at the front of the sequence but
with its OLD stored details: `updated_data.update(self.data)` overwrites
the freshly inserted value with the pre-existing one, so the newly
supplied country/coordinates/days/transport are silently discarded. -/
theorem add_location_start_existing_keeps_old_value
    (resolve : String → GeoResult) (s : Store) (name country : String)
    (days : Int) (transport : String) (lat lon : Int) (ap : Option String)
    (w : Entry) (p₁ p₂ : Store)
    (hres : resolve (name ++ ", " ++ country) = .found lat lon)
    (hdec : s = p₁ ++ (name, w) :: p₂) (hnd : (keysOf s).Nodup) :
    (add_location resolve s name country days transport "start" ap).store
      = (name, w) :: (p₁ ++ p₂) := by
  subst hdec
  rw [add_location_resolved _ _ name country days transport "start" ap lat
    lon hres, if_pos rfl]
  exact startPlace_existing p₁ p₂ name w _ hnd

/-- Witness for C9: re-adding "B" at the start of `[A, B]` with fresh
details moves it to the front but keeps the old details `wB`. -/
theorem add_location_start_existing_keeps_old_value_witness :
    (add_location geoStub [("A", wA), ("B", wB)] "B" "Greece" 9 "boat"
        "start" none).store
      = ("B", wB) :: ([("A", wA)] ++ []) :=
  add_location_start_existing_keeps_old_value geoStub [("A", wA), ("B", wB)]
    "B" "Greece" 9 "boat" 10 20 none wB [("A", wA)] [] rfl rfl (by decide)

/-- Claim C2 (amended).  With `old_name` present, rename keeps all five
stored field values, but the renamed entry does not keep its position:
after the `pop` it lands at the end of the sequence when `new_name` is
fresh, and at the position of the existing `new_name` entry (silently
overwriting it) when `new_name` already names a different entry.  The
snapshot is saved. -/
theorem change_location_name_spec (s : Store) (old_name new_name : String)
    (v : Entry) (h : dictGet s old_name = some v) :
    ((new_name ∉ keysOf (dictPop s old_name)) →
      (change_location_name s old_name new_name).store
        = dictPop s old_name ++ [(new_name, v)])
  ∧ (∀ w q₁ q₂, dictPop s old_name = q₁ ++ (new_name, w) :: q₂ →
      new_name ∉ keysOf q₁ →
      (change_location_name s old_name new_name).store
        = q₁ ++ (new_name, v) :: q₂)
  ∧ (change_location_name s old_name new_name).saved = true := by
  have hc : change_location_name s old_name new_name
      = ⟨dictSet (dictPop s old_name) new_name v, true, none⟩ := by
    unfold change_location_name
    rw [h]
  refine ⟨?_, ?_, by rw [hc]⟩
  · intro hnm
    rw [hc]
    exact dictSet_of_not_mem _ _ _ hnm
  · intro w q₁ q₂ hdec hq₁
    rw [hc]
    show dictSet (dictPop s old_name) new_name v = _
    rw [hdec]
    exact dictSet_of_decomp q₁ q₂ new_name w v hq₁

/-- Witness for the amended C2: renaming "A" to the fresh "C" in `[A, B]`
appends at the end; renaming "A" to the existing "B" overwrites `B` in
place. -/
theorem change_location_name_spec_witness :
    ((change_location_name [("A", wA), ("B", wB)] "A" "C").store
        = dictPop [("A", wA), ("B", wB)] "A" ++ [("C", wA)])
  ∧ ((change_location_name [("A", wA), ("B", wB)] "A" "B").store
        = [] ++ ("B", wA) :: []) := by
  constructor
  · exact (change_location_name_spec [("A", wA), ("B", wB)] "A" "C" wA
      (by decide)).1 (by decide)
  · exact (change_location_name_spec [("A", wA), ("B", wB)] "A" "B" wA
      (by decide)).2.1 wB [] [] (by decide) (by decide)

/-- Claim C3 (amended).  `add_location` of a waypoint whose name already
exists (at the default `end` position, resolution succeeding) creates no
duplicate: the existing entry's value is replaced in place at its current
position, and exactly one entry with that name exists afterwards. -/
theorem add_location_existing_name_end_replaces (resolve : String → GeoResult)
    (s : Store) (name country : String) (days : Int) (transport : String)
    (lat lon : Int) (w : Entry) (p₁ p₂ : Store)
    (hres : resolve (name ++ ", " ++ country) = .found lat lon)
    (hdec : s = p₁ ++ (name, w) :: p₂) (hnd : (keysOf s).Nodup) :
    ((add_location resolve s name country days transport "end" none).store
        = p₁ ++ (name, Entry.e5 country lat lon days transport) :: p₂)
  ∧ (List.count name (keysOf (add_location resolve s name country days
        transport "end" none).store) = 1) := by
  subst hdec
  obtain ⟨hnd₁, hnd₂, hn₁, hn₂, _⟩ := nodup_decomp p₁ p₂ name w hnd
  have hstore : (add_location resolve (p₁ ++ (name, w) :: p₂) name country
      days transport "end" none).store
      = p₁ ++ (name, Entry.e5 country lat lon days transport) :: p₂ := by
    rw [add_location_resolved _ _ name country days transport "end" none lat
      lon hres, if_neg (by decide : ¬ ("end" = "start")),
      if_neg (fun h => absurd h.1 (by decide))]
    exact dictSet_of_decomp p₁ p₂ name w _ hn₁
  refine ⟨hstore, ?_⟩
  rw [hstore, keysOf_append, keysOf_cons, List.count_append,
    List.count_cons_self, List.count_eq_zero_of_not_mem hn₁,
    List.count_eq_zero_of_not_mem hn₂]

/-- Witness for the amended C3 at a concrete input. -/
theorem add_location_existing_name_end_replaces_witness :
    ((add_location geoStub [("A", wA)] "A" "Greece" 9 "boat" "end" none).store
        = [] ++ ("A", Entry.e5 "Greece" 10 20 9 "boat") :: [])
  ∧ (List.count "A" (keysOf (add_location geoStub [("A", wA)] "A" "Greece" 9
        "boat" "end" none).store) = 1) :=
  add_location_existing_name_end_replaces geoStub [("A", wA)] "A" "Greece" 9
    "boat" 10 20 wA [] [] rfl rfl (by decide)

/-- Moving an element to just after a marked element is a permutation:
pulling `x` out of the middle. -/
theorem perm_insert_middle (x y : String × Entry) (q₁ q₂ : Store) :
    (q₁ ++ y :: x :: q₂).Perm (x :: (q₁ ++ y :: q₂)) := by
  have h := @List.perm_middle (String × Entry) x (q₁ ++ [y]) q₂
  simpa using h

/-- Claim C5 (confirmed).  `move_location` on an absent name reports
not-found with the store unchanged and no snapshot write; on a present
name it removes the waypoint and reinserts it with the insert placement
semantics, so the store is a permutation of the old one (no duplicate
created): `"start"` puts it at index 0, `"end"` appends, `"after"` an
existing element places it immediately behind it, and `"after"` an absent
element falls back to the end. -/
theorem move_location_spec (s : Store) (name : String) (pos : String)
    (ap : Option String) (hnd : (keysOf s).Nodup) :
    (dictGet s name = none →
      move_location s name pos ap = ⟨s, false, some PyErr.notFound⟩)
  ∧ (dictMem s name = true → ((move_location s name pos ap).store).Perm s)
  ∧ (∀ v p₁ p₂, s = p₁ ++ (name, v) :: p₂ →
        ((move_location s name "start" ap).store = (name, v) :: (p₁ ++ p₂))
      ∧ ((keysOf (move_location s name "start" ap).store).head? = some name)
      ∧ ((move_location s name "end" ap).store = (p₁ ++ p₂) ++ [(name, v)])
      ∧ (∀ a wa q₁ q₂, p₁ ++ p₂ = q₁ ++ (a, wa) :: q₂ →
            (move_location s name "after" (some a)).store
              = q₁ ++ (a, wa) :: (name, v) :: q₂)
      ∧ (∀ a, a ∉ keysOf (p₁ ++ p₂) →
            (move_location s name "after" (some a)).store
              = (p₁ ++ p₂) ++ [(name, v)])) := by
  refine ⟨?_, ?_, ?_⟩
  · intro h
    unfold move_location
    rw [h]
  · intro hmem
    obtain ⟨p₁, v, p₂, hdec, hp₁⟩ := dictMem_exists_decomp s name hmem
    subst hdec
    obtain ⟨hnd₁, hnd₂, hn₁, hn₂, hdisj⟩ := nodup_decomp p₁ p₂ name v hnd
    have hget := dictGet_of_decomp p₁ p₂ name v hn₁
    have hpop := dictPop_of_decomp p₁ p₂ name v hn₁
    have hnodpop : (keysOf (p₁ ++ p₂)).Nodup := by
      rw [keysOf_append, List.nodup_append]
      exact ⟨hnd₁, hnd₂, fun x hx hx2 => hdisj x hx2 hx⟩
    have hnm : name ∉ keysOf (p₁ ++ p₂) := by
      rw [keysOf_append, List.mem_append]
      push_neg
      exact ⟨hn₁, hn₂⟩
    rw [move_location_found _ _ _ ap v hget]
    by_cases hpos : pos = "start"
    · rw [if_pos hpos]
      show (dictUpdateAll [(name, v)] (dictPop (p₁ ++ (name, v) :: p₂)
        name)).Perm _
      rw [hpop, startPlace_fresh (p₁ ++ p₂) name v hnodpop hnm]
      exact List.perm_middle.symm
    · rw [if_neg hpos]
      by_cases hc2 : pos = "after" ∧
          apMem (dictPop (p₁ ++ (name, v) :: p₂) name) ap = true
      · rw [if_pos hc2]
        obtain ⟨hpa, hmem2⟩ := hc2
        rw [hpop] at hmem2
        cases ap with
        | none => exact absurd hmem2 (by rw [apMem]; decide)
        | some a =>
          rw [apMem] at hmem2
          obtain ⟨q₁, wa, q₂, hq, hq₁⟩ := dictMem_exists_decomp _ a hmem2
          show (insertAfter (dictPop (p₁ ++ (name, v) :: p₂) name)
            a name v).Perm _
          rw [hpop, hq, insertAfter_decomp q₁ q₂ a name wa v
            (by rw [← hq]; exact hnodpop) (by rw [← hq]; exact hnm)]
          refine (perm_insert_middle (name, v) (a, wa) q₁ q₂).trans ?_
          rw [← hq]
          exact List.perm_middle.symm
      · rw [if_neg hc2]
        show (dictSet (dictPop (p₁ ++ (name, v) :: p₂) name) name v).Perm _
        rw [hpop, dictSet_of_not_mem _ _ _ hnm]
        exact (List.perm_append_singleton (name, v) (p₁ ++ p₂)).trans
          List.perm_middle.symm
  · intro v p₁ p₂ hdec
    subst hdec
    obtain ⟨hnd₁, hnd₂, hn₁, hn₂, hdisj⟩ := nodup_decomp p₁ p₂ name v hnd
    have hget := dictGet_of_decomp p₁ p₂ name v hn₁
    have hpop := dictPop_of_decomp p₁ p₂ name v hn₁
    have hnodpop : (keysOf (p₁ ++ p₂)).Nodup := by
      rw [keysOf_append, List.nodup_append]
      exact ⟨hnd₁, hnd₂, fun x hx hx2 => hdisj x hx2 hx⟩
    have hnm : name ∉ keysOf (p₁ ++ p₂) := by
      rw [keysOf_append, List.mem_append]
      push_neg
      exact ⟨hn₁, hn₂⟩
    have hstart : (move_location (p₁ ++ (name, v) :: p₂) name "start"
        ap).store = (name, v) :: (p₁ ++ p₂) := by
      rw [move_location_found _ _ _ ap v hget, if_pos rfl]
      show dictUpdateAll [(name, v)] (dictPop (p₁ ++ (name, v) :: p₂) name) = _
      rw [hpop]
      exact startPlace_fresh (p₁ ++ p₂) name v hnodpop hnm
    refine ⟨hstart, by rw [hstart]; rfl, ?_, ?_, ?_⟩
    · rw [move_location_found _ _ _ ap v hget,
        if_neg (by decide : ¬ ("end" = "start")),
        if_neg (fun h => absurd h.1 (by decide))]
      show dictSet (dictPop (p₁ ++ (name, v) :: p₂) name) name v = _
      rw [hpop]
      exact dictSet_of_not_mem _ _ _ hnm
    · intro a wa q₁ q₂ hq
      rw [move_location_found _ _ _ (some a) v hget,
        if_neg (by decide : ¬ ("after" = "start")),
        if_pos ⟨rfl, by
          rw [apMem, hpop, hq]
          exact dictMem_of_decomp q₁ q₂ a wa⟩]
      show insertAfter (dictPop (p₁ ++ (name, v) :: p₂) name) a name v = _
      rw [hpop, hq]
      exact insertAfter_decomp q₁ q₂ a name wa v (by rw [← hq]; exact hnodpop)
        (by rw [← hq]; exact hnm)
    · intro a ha
      rw [move_location_found _ _ _ (some a) v hget,
        if_neg (by decide : ¬ ("after" = "start")),
        if_neg (fun h => by
          have hm := h.2
          rw [hpop, apMem_false_of_not_mem (p₁ ++ p₂) a ha] at hm
          exact Bool.false_ne_true hm)]
      show dictSet (dictPop (p₁ ++ (name, v) :: p₂) name) name v = _
      rw [hpop]
      exact dictSet_of_not_mem _ _ _ hnm

/-- Witness for C5 at concrete inputs over the store `[A, B, C]`: moving
the absent "Z" reports not-found and changes nothing; moving "C" to the
start puts it at index 0; moving "A" after the absent "Z" appends it. -/
theorem move_location_spec_witness :
    (move_location [("A", wA), ("B", wB), ("C", wC)] "Z" "end" none
        = ⟨[("A", wA), ("B", wB), ("C", wC)], false, some PyErr.notFound⟩)
  ∧ ((move_location [("A", wA), ("B", wB), ("C", wC)] "C" "start" none).store
        = ("C", wC) :: ([("A", wA), ("B", wB)] ++ []))
  ∧ ((move_location [("A", wA), ("B", wB), ("C", wC)] "A" "after"
        (some "Z")).store = ([] ++ [("B", wB), ("C", wC)]) ++ [("A", wA)]) := by
  refine ⟨?_, ?_, ?_⟩
  · exact (move_location_spec [("A", wA), ("B", wB), ("C", wC)] "Z" "end"
      none (by decide)).1 (by decide)
  · exact ((move_location_spec [("A", wA), ("B", wB), ("C", wC)] "C" "start"
      none (by decide)).2.2 wC [("A", wA), ("B", wB)] [] rfl).1
  · exact ((move_location_spec [("A", wA), ("B", wB), ("C", wC)] "A" "after"
      (some "Z") (by decide)).2.2 wA [] [("B", wB), ("C", wC)] rfl).2.2.2.2
      "Z" (by decide)

/-- The §8 scenario store: A(country X, 2 days), B(country Y, 3 days),
C(country X, 1 day), inserted at the default end position into an empty
store. -/
def exampleItinerary : Store :=
  (add_location geoStub
    ((add_location geoStub
      ((add_location geoStub [] "A" "X" 2 "Unknown" "end" none).store)
      "B" "Y" 3 "Unknown" "end" none).store)
    "C" "X" 1 "Unknown" "end" none).store

/-- Claim C7 (confirmed).  `days_per_country` aggregates, per country, the
sum of `duration_days` over the waypoints of that country (`totalIn` of
the returned mapping equals the specification sum for every country); its
enumeration (the sorted display) lists the totals in descending order,
contains exactly the entries of the mapping, and breaks ties by
first-encountered order (for every total, the equal-total entries appear
in exactly their first-encounter order); on the scenario store the result
enumerates X before Y with totals 3 and 3. -/
theorem days_per_country_spec (s : Store) :
    (∀ c, totalIn (days_per_country s) c = sumDaysFor s c)
  ∧ ((days_per_country_display s).Pairwise (fun p q => q.2 ≤ p.2))
  ∧ (∀ t, (days_per_country_display s).filter (fun y => decide (y.2 = t))
        = (days_per_country s).filter (fun y => decide (y.2 = t)))
  ∧ ((days_per_country_display s).Perm (days_per_country s))
  ∧ (days_per_country_display exampleItinerary = [("X", 3), ("Y", 3)]) :=
  ⟨days_per_country_totalIn s, sortDesc_pairwise (days_per_country s),
    sortDesc_filter (days_per_country s),
    sortDesc_perm (days_per_country s), by decide⟩
